import Mathlib

/-!
Shallow embedding of the `grid_split` mesh-splitting core
(`grid_split/core.py` and the CLI wiring in `grid_split/cli.py`).

Coordinates are modelled as rationals (exact real-number semantics of the
floating-point source, without rounding).  `numpy.arange(start, stop, step)`
is modelled by its documented semantics: the arithmetic sequence
`start + n*step` of length `ceil((stop - start) / step)` (clamped at 0),
which for a zero `step` raises `ZeroDivisionError` — modelled by the
`Except` error branch of `build_grid`.
-/

/-- A 3-D point (one row of a numpy `(3,)` array). -/
structure Pt where
  x : ℚ
  y : ℚ
  z : ℚ
deriving DecidableEq

/-- Componentwise `≤` on points. -/
def Pt.le (a b : Pt) : Prop := a.x ≤ b.x ∧ a.y ≤ b.y ∧ a.z ≤ b.z

instance (a b : Pt) : Decidable (Pt.le a b) := by unfold Pt.le; infer_instance

/-- Componentwise `<` on points. -/
def Pt.lt (a b : Pt) : Prop := a.x < b.x ∧ a.y < b.y ∧ a.z < b.z

instance (a b : Pt) : Decidable (Pt.lt a b) := by unfold Pt.lt; infer_instance

/-- Membership of a point in the closed axis-aligned box `[mn, mx]`. -/
def inBox (mn mx p : Pt) : Prop := Pt.le mn p ∧ Pt.le p mx

instance (mn mx p : Pt) : Decidable (inBox mn mx p) := by unfold inBox; infer_instance

/-- Length of `numpy.arange(start, stop, step)` (for `step ≠ 0`):
`max 0 ⌈(stop - start) / step⌉`. -/
def arangeLen (start stop step : ℚ) : ℕ := (⌈(stop - start) / step⌉).toNat

/-- `numpy.arange(start, stop, step)` in exact arithmetic:
`[start, start + step, …]`, of length `arangeLen start stop step`. -/
def arange (start stop step : ℚ) : List ℚ :=
  (List.range (arangeLen start stop step)).map (fun n : ℕ => start + (n : ℚ) * step)

/-- A grid cell: minimum corner, maximum corner, lattice index `(i, j, k)`.
Mirrors the tuples `(cmin, cmax, (i, j, k))` built by `build_grid`. -/
structure Cell where
  cmin : Pt
  cmax : Pt
  idx : ℕ × ℕ × ℕ
deriving DecidableEq

/-- The cut coordinates of one axis: `xs = np.arange(min, max + step, step)`
in `build_grid`. -/
def axisCuts (mn mx step : ℚ) : List ℚ := arange mn (mx + step) step

/-- The cell list built by the nested loops of `build_grid`:
for `i in range(len(xs)-1)`, `j in range(len(ys)-1)`, `k in range(len(zs)-1)`,
the cell `((xs[i], ys[j], zs[k]), (xs[i+1], ys[j+1], zs[k+1]), (i, j, k))`. -/
def gridCells (mn mx step : Pt) : List Cell :=
  let xs := axisCuts mn.x mx.x step.x
  let ys := axisCuts mn.y mx.y step.y
  let zs := axisCuts mn.z mx.z step.z
  (List.range (xs.length - 1)).flatMap (fun i =>
    (List.range (ys.length - 1)).flatMap (fun j =>
      (List.range (zs.length - 1)).map (fun k =>
        { cmin := ⟨xs.getD i 0, ys.getD j 0, zs.getD k 0⟩,
          cmax := ⟨xs.getD (i+1) 0, ys.getD (j+1) 0, zs.getD (k+1) 0⟩,
          idx := (i, j, k) })))

/-- `build_grid(bounds, step)` from `grid_split/core.py`.  The source performs
no argument validation; the only failure is `numpy.arange` raising
`ZeroDivisionError` when a step component is zero. -/
def build_grid (bounds : Pt × Pt) (step : Pt) : Except String (List Cell) :=
  if step.x = 0 ∨ step.y = 0 ∨ step.z = 0 then
    Except.error "ZeroDivisionError: division by zero"
  else
    Except.ok (gridCells bounds.1 bounds.2 step)

/-- Evaluation helper: `arangeLen` at a concrete ceiling value. -/
lemma arangeLen_eq_ofCeil (start stop step : ℚ) (c : ℤ)
    (h : ⌈(stop - start) / step⌉ = c) : arangeLen start stop step = c.toNat := by
  rw [arangeLen, h]

lemma arange_length (start stop step : ℚ) :
    (arange start stop step).length = arangeLen start stop step := by
  rw [arange, List.length_map, List.length_range]

lemma arange_getElem (start stop step : ℚ) (n : ℕ)
    (h : n < (arange start stop step).length) :
    (arange start stop step)[n] = start + n * step := by
  simp only [arange, List.getElem_map, List.getElem_range]

lemma arange_getD (start stop step : ℚ) (n : ℕ)
    (h : n < arangeLen start stop step) :
    (arange start stop step).getD n 0 = start + n * step := by
  rw [List.getD_eq_getElem _ _ (by rwa [arange_length]), arange_getElem]

/-- Index bound versus coordinate bound for `arange`, positive step. -/
lemma lt_arangeLen_iff (start stop step : ℚ) (hstep : 0 < step) (n : ℕ) :
    n < arangeLen start stop step ↔ start + n * step < stop := by
  rw [arangeLen, Int.lt_toNat, Int.lt_ceil]
  push_cast
  rw [lt_div_iff₀ hstep]
  constructor <;> intro h <;> linarith

/-- The cut coordinates of an axis are strictly ascending (positive step). -/
lemma arange_sorted (start stop step : ℚ) (hstep : 0 < step) :
    (arange start stop step).Pairwise (· < ·) := by
  rw [arange, List.pairwise_map]
  refine (List.pairwise_lt_range _).imp ?_
  intro a b h
  have hc : (a:ℚ) * step < (b:ℚ) * step :=
    mul_lt_mul_of_pos_right (by exact_mod_cast h) hstep
  linarith

/-- The first cut coordinate is the interval start. -/
lemma arange_head (start stop step : ℚ) (h : 0 < arangeLen start stop step) :
    (arange start stop step).head? = some start := by
  rw [arange]
  rcases Nat.exists_eq_add_of_lt h with ⟨k, hk⟩
  rw [show arangeLen start stop step = k + 1 by omega, List.range_succ_eq_map]
  simp

lemma sum_map_const_range (a m : ℕ) : ((List.range a).map (fun _ => m)).sum = a * m := by
  induction a with
  | zero => simp
  | succ k ih =>
    rw [List.range_succ, List.map_append, List.sum_append, ih]
    simp [Nat.succ_mul]

lemma axisCuts_length (a b s : ℚ) : (axisCuts a b s).length = arangeLen a (b + s) s := by
  rw [axisCuts, arange_length]

/-- The number of cells is the product over the axes of
`(number of cut coordinates - 1)`. -/
lemma gridCells_length (mn mx step : Pt) :
    (gridCells mn mx step).length =
      ((axisCuts mn.x mx.x step.x).length - 1) *
        (((axisCuts mn.y mx.y step.y).length - 1) *
          ((axisCuts mn.z mx.z step.z).length - 1)) := by
  simp only [gridCells, List.length_flatMap, List.length_map, Function.comp_def,
    List.length_range, sum_map_const_range]

lemma gridCells_eq_nil_of_axis (mn mx step : Pt)
    (h : (axisCuts mn.x mx.x step.x).length - 1 = 0 ∨
         (axisCuts mn.y mx.y step.y).length - 1 = 0 ∨
         (axisCuts mn.z mx.z step.z).length - 1 = 0) :
    gridCells mn mx step = [] := by
  have hl := gridCells_length mn mx step
  rw [← List.length_eq_zero]
  rcases h with h | h | h <;> rw [hl, h] <;> ring

lemma arangeLen_le_one (start stop step : ℚ) (h : (stop - start) / step ≤ 1) :
    arangeLen start stop step ≤ 1 := by
  rw [arangeLen]
  have hc : ⌈(stop - start) / step⌉ ≤ 1 := Int.ceil_le.mpr (by exact_mod_cast h)
  omega

/-- A negative step (with well-formed bounds) yields at most one cut coordinate. -/
lemma axisCuts_neg_step (a b s : ℚ) (hs : s < 0) (hab : a ≤ b) :
    (axisCuts a b s).length - 1 = 0 := by
  have h1 : (b + s - a) / s ≤ 1 := by
    rw [div_le_iff_of_neg hs]
    linarith
  have := arangeLen_le_one a (b + s) s h1
  rw [axisCuts_length]
  omega

/-- Malformed bounds (`max < min`) with a positive step yield at most one cut
coordinate. -/
lemma axisCuts_inverted (a b s : ℚ) (hs : 0 < s) (hba : b < a) :
    (axisCuts a b s).length - 1 = 0 := by
  have h1 : (b + s - a) / s ≤ 1 := by
    rw [div_le_one hs]
    linarith
  have := arangeLen_le_one a (b + s) s h1
  rw [axisCuts_length]
  omega

/-- A zero-extent axis (with a positive step) yields exactly one cut
coordinate, hence zero cells on that axis. -/
lemma axisCuts_zero_extent (a s : ℚ) (hs : 0 < s) :
    (axisCuts a a s).length - 1 = 0 := by
  have h1 : (a + s - a) / s ≤ 1 := by
    rw [show a + s - a = s by ring, div_self (ne_of_gt hs)]
  have := arangeLen_le_one a (a + s) s h1
  rw [axisCuts_length]
  omega

/-- Membership of an arithmetic-progression point in `arange` (positive step):
exactly the points strictly below `stop` occur. -/
lemma mem_arange_iff (start stop step : ℚ) (hstep : 0 < step) (n : ℕ) :
    start + n * step ∈ arange start stop step ↔ start + n * step < stop := by
  rw [arange, List.mem_map]
  constructor
  · rintro ⟨m, hm, hv⟩
    have hmn : m = n := by
      have := mul_right_cancel₀ (ne_of_gt hstep) (by linarith : (m:ℚ) * step = n * step)
      exact_mod_cast this
    subst hmn
    exact (lt_arangeLen_iff start stop step hstep m).mp (List.mem_range.mp hm)
  · intro h
    exact ⟨n, List.mem_range.mpr ((lt_arangeLen_iff start stop step hstep n).mpr h), rfl⟩

/-- One axis of the coverage argument: any `p ∈ [a, b]` lies between two
consecutive cut coordinates, provided the axis has at least one cell. -/
lemma axis_cover (a b s p : ℚ) (hs : 0 < s) (hab : a < b)
    (h1 : a ≤ p) (h2 : p ≤ b) :
    ∃ i : ℕ, i + 1 < arangeLen a (b + s) s ∧
      a + (i : ℚ) * s ≤ p ∧ p ≤ a + ((i : ℚ) + 1) * s := by
  set N := arangeLen a (b + s) s with hN
  have hN2 : 1 < N := by
    rw [hN, lt_arangeLen_iff a (b + s) s hs 1]
    push_cast
    linarith
  have hnn : (0 : ℚ) ≤ (p - a) / s := div_nonneg (by linarith) (le_of_lt hs)
  have hfl : (0 : ℤ) ≤ ⌊(p - a) / s⌋ := Int.floor_nonneg.mpr hnn
  set q : ℕ := (⌊(p - a) / s⌋).toNat with hq
  have hqeq : ((q : ℕ) : ℚ) = ((⌊(p - a) / s⌋ : ℤ) : ℚ) := by
    rw [hq]
    exact_mod_cast Int.toNat_of_nonneg hfl
  have hq1 : (q : ℚ) ≤ (p - a) / s := by
    rw [hqeq]
    exact Int.floor_le _
  have hq2 : (p - a) / s < (q : ℚ) + 1 := by
    rw [hqeq]
    exact Int.lt_floor_add_one _
  have hql : (q : ℚ) * s ≤ p - a := (le_div_iff₀ hs).mp hq1
  have hqu : p - a < ((q : ℚ) + 1) * s := (div_lt_iff₀ hs).mp hq2
  by_cases hcase : q ≤ N - 2
  · exact ⟨q, by omega, by linarith, by linarith⟩
  · refine ⟨N - 2, by omega, ?_, ?_⟩
    · -- q ≥ N - 1, so p ≥ a + (N-1)·s ≥ a + (N-2)·s
      have hq3 : (N : ℚ) - 1 ≤ (q : ℚ) := by
        have : N - 1 ≤ q := by omega
        have hcast : ((N - 1 : ℕ) : ℚ) ≤ (q : ℚ) := by exact_mod_cast this
        rwa [Nat.cast_sub (by omega)] at hcast
      have hc2 : ((N - 2 : ℕ) : ℚ) = (N : ℚ) - 2 := by
        rw [Nat.cast_sub (by omega)]
        norm_num
      rw [hc2]
      nlinarith
    · -- p ≤ b ≤ a + (N-1)·s
      have hub : ¬ (N < N) := lt_irrefl N
      rw [hN, lt_arangeLen_iff a (b + s) s hs N] at hub
      push_neg at hub
      have hc2 : ((N - 2 : ℕ) : ℚ) = (N : ℚ) - 2 := by
        rw [Nat.cast_sub (by omega)]
        norm_num
      rw [hc2]
      linarith

lemma axisCuts_getD (a b s : ℚ) (n : ℕ) (h : n < arangeLen a (b + s) s) :
    (axisCuts a b s).getD n 0 = a + (n : ℚ) * s := by
  rw [axisCuts, arange_getD _ _ _ _ h]

/-- The cell built from lattice index `(i, j, k)` is in the grid. -/
lemma mem_gridCells (mn mx step : Pt) (i j k : ℕ)
    (hi : i < (axisCuts mn.x mx.x step.x).length - 1)
    (hj : j < (axisCuts mn.y mx.y step.y).length - 1)
    (hk : k < (axisCuts mn.z mx.z step.z).length - 1) :
    ({ cmin := ⟨(axisCuts mn.x mx.x step.x).getD i 0,
               (axisCuts mn.y mx.y step.y).getD j 0,
               (axisCuts mn.z mx.z step.z).getD k 0⟩,
       cmax := ⟨(axisCuts mn.x mx.x step.x).getD (i+1) 0,
               (axisCuts mn.y mx.y step.y).getD (j+1) 0,
               (axisCuts mn.z mx.z step.z).getD (k+1) 0⟩,
       idx := (i, j, k) } : Cell) ∈ gridCells mn mx step := by
  simp only [gridCells]
  refine List.mem_flatMap.mpr ⟨i, List.mem_range.mpr hi, ?_⟩
  refine List.mem_flatMap.mpr ⟨j, List.mem_range.mpr hj, ?_⟩
  exact List.mem_map.mpr ⟨k, List.mem_range.mpr hk, rfl⟩

/-- Coverage: when every axis has positive extent, the union of the cells'
boxes contains the input bounds. -/
lemma gridCells_cover (mn mx step : Pt) (hstep : Pt.lt ⟨0,0,0⟩ step)
    (hlt : Pt.lt mn mx) :
    ∀ p : Pt, inBox mn mx p → ∃ c ∈ gridCells mn mx step, inBox c.cmin c.cmax p := by
  obtain ⟨hsx, hsy, hsz⟩ := hstep
  obtain ⟨hx, hy, hz⟩ := hlt
  rintro p ⟨⟨hp1x, hp1y, hp1z⟩, ⟨hp2x, hp2y, hp2z⟩⟩
  obtain ⟨i, hi, hil, hiu⟩ := axis_cover mn.x mx.x step.x p.x hsx hx hp1x hp2x
  obtain ⟨j, hj, hjl, hju⟩ := axis_cover mn.y mx.y step.y p.y hsy hy hp1y hp2y
  obtain ⟨k, hk, hkl, hku⟩ := axis_cover mn.z mx.z step.z p.z hsz hz hp1z hp2z
  refine ⟨_, mem_gridCells mn mx step i j k
    (by rw [axisCuts_length]; omega)
    (by rw [axisCuts_length]; omega)
    (by rw [axisCuts_length]; omega), ?_⟩
  have gx1 := axisCuts_getD mn.x mx.x step.x i (by omega)
  have gy1 := axisCuts_getD mn.y mx.y step.y j (by omega)
  have gz1 := axisCuts_getD mn.z mx.z step.z k (by omega)
  have gx2 := axisCuts_getD mn.x mx.x step.x (i+1) hi
  have gy2 := axisCuts_getD mn.y mx.y step.y (j+1) hj
  have gz2 := axisCuts_getD mn.z mx.z step.z (k+1) hk
  refine ⟨⟨?_, ?_, ?_⟩, ⟨?_, ?_, ?_⟩⟩ <;>
    simp only [gx1, gy1, gz1, gx2, gy2, gz2] <;> push_cast <;> linarith

/-- The per-axis behaviour of the cut sequence as it actually holds: it starts
at `min`, is strictly ascending with increment `step`, and contains exactly
the lattice coordinates *strictly below* `max + step`. -/
def axisAscending (a b s : ℚ) : Prop :=
  (axisCuts a b s).head? = some a ∧
  (axisCuts a b s).Pairwise (· < ·) ∧
  ∀ n : ℕ, (a + (n : ℚ) * s ∈ axisCuts a b s ↔ a + (n : ℚ) * s < b + s)

lemma axisAscending_of (a b s : ℚ) (hs : 0 < s) (hab : a ≤ b) :
    axisAscending a b s := by
  refine ⟨?_, arange_sorted a (b + s) s hs, fun n => mem_arange_iff a (b + s) s hs n⟩
  rw [axisCuts]
  apply arange_head
  rw [show (0:ℕ) < arangeLen a (b + s) s ↔ _ from lt_arangeLen_iff a (b + s) s hs 0]
  push_cast
  linarith

/-- **C1 (amended)**: for componentwise `min ≤ max` and positive steps,
`build_grid` succeeds and returns `gridCells`; each axis's cut sequence starts
at `min[axis]`, is strictly ascending, and contains exactly the lattice
coordinates `min[axis] + n·step[axis]` that are *strictly less than*
`max[axis] + step[axis]` (not all those `≤ max[axis] + step[axis]`, as the
claim stated); the cell count is the product over the three axes of
`(number of cut coordinates − 1)`; and when every axis has *positive* extent
(`min < max` componentwise — the degenerate equality case yields an empty
grid with empty union) the union of the cells' boxes contains the bounds. -/
theorem build_grid_axes_count_cover (mn mx step : Pt)
    (hstep : Pt.lt ⟨0,0,0⟩ step) (hle : Pt.le mn mx) :
    build_grid (mn, mx) step = Except.ok (gridCells mn mx step) ∧
    axisAscending mn.x mx.x step.x ∧
    axisAscending mn.y mx.y step.y ∧
    axisAscending mn.z mx.z step.z ∧
    (gridCells mn mx step).length =
      ((axisCuts mn.x mx.x step.x).length - 1) *
        (((axisCuts mn.y mx.y step.y).length - 1) *
          ((axisCuts mn.z mx.z step.z).length - 1)) ∧
    (Pt.lt mn mx →
      ∀ p : Pt, inBox mn mx p → ∃ c ∈ gridCells mn mx step, inBox c.cmin c.cmax p) := by
  simp only [Pt.lt] at hstep
  simp only [Pt.le] at hle
  obtain ⟨h1, h2, h3⟩ := hstep
  obtain ⟨l1, l2, l3⟩ := hle
  refine ⟨?_, axisAscending_of _ _ _ h1 l1, axisAscending_of _ _ _ h2 l2,
    axisAscending_of _ _ _ h3 l3, gridCells_length mn mx step,
    fun hlt => gridCells_cover mn mx step ⟨h1, h2, h3⟩ hlt⟩
  rw [build_grid, if_neg]
  push_neg
  exact ⟨ne_of_gt h1, ne_of_gt h2, ne_of_gt h3⟩

/-- **C1 counterexample**: at the valid input `bounds = ((0,0,0),(0,0,0))`,
`step = (1,1,1)` the claim as stated fails twice: the lattice coordinate
`0 + 1·1 = 1` satisfies `≤ max.x + step.x` yet is not a cut coordinate
(`numpy.arange` excludes its stop value), and the union of the returned cells
(there are none) does not contain the input bounds (the point `(0,0,0)`). -/
theorem build_grid_claim_counterexample :
    Pt.lt ⟨0,0,0⟩ ⟨1,1,1⟩ ∧ Pt.le ⟨0,0,0⟩ ⟨0,0,0⟩ ∧
    ((0:ℚ) + (1:ℕ) * 1 ≤ (0:ℚ) + 1 ∧ ((0:ℚ) + (1:ℕ) * 1) ∉ axisCuts 0 0 1) ∧
    gridCells ⟨0,0,0⟩ ⟨0,0,0⟩ ⟨1,1,1⟩ = [] ∧
    inBox ⟨0,0,0⟩ ⟨0,0,0⟩ ⟨0,0,0⟩ := by
  have e1 : arangeLen 0 (0 + 1) 1 = 1 := by
    rw [arangeLen_eq_ofCeil 0 (0 + 1) 1 1 (by norm_num)]
    rfl
  have e2 : axisCuts (0:ℚ) 0 1 = [0] := by
    simp only [axisCuts, arange, e1]
    norm_num [List.range_succ]
  refine ⟨⟨by norm_num, by norm_num, by norm_num⟩,
    ⟨le_refl _, le_refl _, le_refl _⟩, ⟨by norm_num, ?_⟩, ?_,
    ⟨⟨le_refl _, le_refl _, le_refl _⟩, ⟨le_refl _, le_refl _, le_refl _⟩⟩⟩
  · rw [e2]
    norm_num
  · exact gridCells_eq_nil_of_axis _ _ _
      (Or.inl (axisCuts_zero_extent 0 1 (by norm_num)))

/-- Witness for `build_grid_axes_count_cover` at bounds `((0,0,0),(2,2,2))`,
step `(1,1,1)`. -/
theorem build_grid_axes_count_cover_witness :
    Pt.lt ⟨0,0,0⟩ ⟨1,1,1⟩ ∧ Pt.le ⟨0,0,0⟩ ⟨2,2,2⟩ ∧
    build_grid (⟨0,0,0⟩, ⟨2,2,2⟩) ⟨1,1,1⟩ =
      Except.ok (gridCells ⟨0,0,0⟩ ⟨2,2,2⟩ ⟨1,1,1⟩) :=
  ⟨⟨by norm_num, by norm_num, by norm_num⟩,
   ⟨by norm_num, by norm_num, by norm_num⟩,
   (build_grid_axes_count_cover ⟨0,0,0⟩ ⟨2,2,2⟩ ⟨1,1,1⟩
      ⟨by norm_num, by norm_num, by norm_num⟩
      ⟨by norm_num, by norm_num, by norm_num⟩).1⟩

/-- **C6 (amended)**: `build_grid` performs no `InvalidArgument` validation.
A zero step component fails with the range generator's division-by-zero
error (raised before any cell processing); the other inputs the claim calls
invalid are accepted without error: with well-formed bounds and a negative
step component (all components nonzero), or with positive steps and
`max < min` on some axis, it returns `ok` with an *empty* grid. -/
theorem build_grid_no_validation (mn mx step : Pt) :
    ((step.x = 0 ∨ step.y = 0 ∨ step.z = 0) →
      build_grid (mn, mx) step =
        Except.error "ZeroDivisionError: division by zero") ∧
    (Pt.le mn mx → (step.x < 0 ∨ step.y < 0 ∨ step.z < 0) →
      step.x ≠ 0 → step.y ≠ 0 → step.z ≠ 0 →
      build_grid (mn, mx) step = Except.ok []) ∧
    (Pt.lt ⟨0,0,0⟩ step → (mx.x < mn.x ∨ mx.y < mn.y ∨ mx.z < mn.z) →
      build_grid (mn, mx) step = Except.ok []) := by
  refine ⟨fun h => by rw [build_grid, if_pos h], ?_, ?_⟩
  · intro hle hneg hx hy hz
    simp only [Pt.le] at hle
    have hz1 : ¬ (step.x = 0 ∨ step.y = 0 ∨ step.z = 0) := by
      push_neg
      exact ⟨hx, hy, hz⟩
    have hnil : gridCells mn mx step = [] := by
      apply gridCells_eq_nil_of_axis
      rcases hneg with h | h | h
      · exact Or.inl (axisCuts_neg_step _ _ _ h hle.1)
      · exact Or.inr (Or.inl (axisCuts_neg_step _ _ _ h hle.2.1))
      · exact Or.inr (Or.inr (axisCuts_neg_step _ _ _ h hle.2.2))
    rw [build_grid, if_neg hz1]
    exact congrArg Except.ok hnil
  · intro hpos hinv
    simp only [Pt.lt] at hpos
    have hz1 : ¬ (step.x = 0 ∨ step.y = 0 ∨ step.z = 0) := by
      push_neg
      exact ⟨ne_of_gt hpos.1, ne_of_gt hpos.2.1, ne_of_gt hpos.2.2⟩
    have hnil : gridCells mn mx step = [] := by
      apply gridCells_eq_nil_of_axis
      rcases hinv with h | h | h
      · exact Or.inl (axisCuts_inverted _ _ _ hpos.1 h)
      · exact Or.inr (Or.inl (axisCuts_inverted _ _ _ hpos.2.1 h))
      · exact Or.inr (Or.inr (axisCuts_inverted _ _ _ hpos.2.2 h))
    rw [build_grid, if_neg hz1]
    exact congrArg Except.ok hnil

/-- **C6 counterexample**: for the malformed bounds `min = (5,5,5) >
max = (0,0,0)` with positive step `(1,1,1)`, `build_grid` does *not* fail
with any error — it returns an empty grid. -/
theorem build_grid_invalid_args_counterexample :
    (0:ℚ) < 5 ∧ build_grid (⟨5,5,5⟩, ⟨0,0,0⟩) ⟨1,1,1⟩ = Except.ok [] := by
  refine ⟨by norm_num, ?_⟩
  have hnil : gridCells ⟨5,5,5⟩ ⟨0,0,0⟩ ⟨1,1,1⟩ = [] :=
    gridCells_eq_nil_of_axis _ _ _
      (Or.inl (axisCuts_inverted 5 0 1 (by norm_num) (by norm_num)))
  rw [build_grid, if_neg (by push_neg; norm_num)]
  exact congrArg Except.ok hnil

/-- Witness for `build_grid_no_validation`: zero step component. -/
theorem build_grid_no_validation_witness :
    ((0:ℚ) = 0 ∨ (1:ℚ) = 0 ∨ (1:ℚ) = 0) ∧
    build_grid (⟨0,0,0⟩, ⟨1,1,1⟩) ⟨0,1,1⟩ =
      Except.error "ZeroDivisionError: division by zero" :=
  ⟨Or.inl rfl,
   (build_grid_no_validation ⟨0,0,0⟩ ⟨1,1,1⟩ ⟨0,1,1⟩).1 (Or.inl rfl)⟩

/-- **C7 (amended)**: with valid bounds and positive steps, an axis of *zero*
extent (`min[axis] = max[axis]`) yields zero cells along that axis and hence
an empty grid, returned as a legitimate `ok` result rather than an error.
(An axis of positive extent merely *smaller than* the step yields one cell,
not zero — see the counterexample.) -/
theorem build_grid_zero_extent_empty (mn mx step : Pt)
    (hstep : Pt.lt ⟨0,0,0⟩ step) (hle : Pt.le mn mx)
    (hdeg : mn.x = mx.x ∨ mn.y = mx.y ∨ mn.z = mx.z) :
    build_grid (mn, mx) step = Except.ok [] := by
  simp only [Pt.lt] at hstep
  have hz1 : ¬ (step.x = 0 ∨ step.y = 0 ∨ step.z = 0) := by
    push_neg
    exact ⟨ne_of_gt hstep.1, ne_of_gt hstep.2.1, ne_of_gt hstep.2.2⟩
  have hnil : gridCells mn mx step = [] := by
    apply gridCells_eq_nil_of_axis
    rcases hdeg with h | h | h
    · refine Or.inl ?_
      rw [← h]
      exact axisCuts_zero_extent _ _ hstep.1
    · refine Or.inr (Or.inl ?_)
      rw [← h]
      exact axisCuts_zero_extent _ _ hstep.2.1
    · refine Or.inr (Or.inr ?_)
      rw [← h]
      exact axisCuts_zero_extent _ _ hstep.2.2
  rw [build_grid, if_neg hz1]
  exact congrArg Except.ok hnil

/-- **C7 counterexample**: an axis extent that is positive but smaller than
the step (`1/2 < 1` on every axis) does *not* yield zero cells: the grid has
exactly one cell, `([0,1]³, index (0,0,0))`, so the result is not empty. -/
theorem build_grid_subcell_extent_counterexample :
    (0:ℚ) < 1/2 ∧ ((1:ℚ)/2 - 0 < 1) ∧
    gridCells ⟨0,0,0⟩ ⟨1/2,1/2,1/2⟩ ⟨1,1,1⟩ =
      [{ cmin := ⟨0,0,0⟩, cmax := ⟨1,1,1⟩, idx := (0,0,0) }] := by
  have e1 : arangeLen 0 (1/2 + 1) 1 = 2 := by
    rw [arangeLen_eq_ofCeil 0 (1/2 + 1) 1 2 (by rw [Int.ceil_eq_iff] <;> norm_num)]
    rfl
  have e2 : axisCuts (0:ℚ) (1/2) 1 = [0, 1] := by
    simp only [axisCuts, arange, e1]
    norm_num [List.range_succ]
  refine ⟨by norm_num, by norm_num, ?_⟩
  simp only [gridCells, e2]
  norm_num [List.range_succ]

/-- Witness for `build_grid_zero_extent_empty` at bounds `((0,0,0),(0,2,2))`
(zero extent on the x axis), step `(1,1,1)`. -/
theorem build_grid_zero_extent_empty_witness :
    Pt.lt ⟨0,0,0⟩ ⟨1,1,1⟩ ∧ Pt.le ⟨0,0,0⟩ ⟨0,2,2⟩ ∧ (0:ℚ) = 0 ∧
    build_grid (⟨0,0,0⟩, ⟨0,2,2⟩) ⟨1,1,1⟩ = Except.ok [] :=
  ⟨⟨by norm_num, by norm_num, by norm_num⟩,
   ⟨le_refl _, by norm_num, by norm_num⟩, rfl,
   build_grid_zero_extent_empty ⟨0,0,0⟩ ⟨0,2,2⟩ ⟨1,1,1⟩
     ⟨by norm_num, by norm_num, by norm_num⟩
     ⟨le_refl _, by norm_num, by norm_num⟩ (Or.inl rfl)⟩

/-! ## Mesh model and the per-cell loop of `slice_to_single` -/

/-- A triangulated surface mesh: vertex positions (`mesh.vertices`) and faces
as vertex-index triples (`mesh.faces`). -/
structure Mesh where
  vertices : List Pt
  faces : List (ℕ × ℕ × ℕ)
deriving DecidableEq

/-- Every face's three vertex indices are in range. -/
def validMesh (m : Mesh) : Prop :=
  ∀ f ∈ m.faces, f.1 < m.vertices.length ∧ f.2.1 < m.vertices.length ∧
    f.2.2 < m.vertices.length

instance (m : Mesh) : Decidable (validMesh m) := by unfold validMesh; infer_instance

/-- Vertex lookup (`mesh.vertices[i]`), defaulting to the origin. -/
def Mesh.vertexAt (m : Mesh) (i : ℕ) : Pt := m.vertices.getD i ⟨0, 0, 0⟩

def dotP (a b : Pt) : ℚ := a.x * b.x + a.y * b.y + a.z * b.z

def crossP (a b : Pt) : Pt :=
  ⟨a.y * b.z - a.z * b.y, a.z * b.x - a.x * b.z, a.x * b.y - a.y * b.x⟩

/-- Signed enclosed volume via the divergence theorem
(`trimesh.Trimesh.volume`): `Σ_faces ⟨v₀, v₁ × v₂⟩ / 6`. -/
def meshVolume (m : Mesh) : ℚ :=
  (m.faces.map (fun f =>
    dotP (m.vertexAt f.1) (crossP (m.vertexAt f.2.1) (m.vertexAt f.2.2)))).sum / 6

/-- The componentwise box test on one vertex, as the boolean conjunction
`v[:,0] >= cmin[0] & v[:,0] <= cmax[0] & …` computes it. -/
def vInBoxB (cmin cmax v : Pt) : Bool :=
  decide (cmin.x ≤ v.x) && decide (v.x ≤ cmax.x) &&
  decide (cmin.y ≤ v.y) && decide (v.y ≤ cmax.y) &&
  decide (cmin.z ≤ v.z) && decide (v.z ≤ cmax.z)

lemma vInBoxB_iff (cmin cmax v : Pt) :
    vInBoxB cmin cmax v = true ↔ inBox cmin cmax v := by
  simp [vInBoxB, inBox, Pt.le]
  tauto

/-- The per-vertex `inside` array of the planar fallback. -/
def insideFlags (m : Mesh) (cmin cmax : Pt) : List Bool :=
  m.vertices.map (vInBoxB cmin cmax)

/-- The per-face mask `inside[mesh.faces].all(axis=1)`. -/
def faceMask (m : Mesh) (cmin cmax : Pt) : List Bool :=
  m.faces.map (fun f =>
    (insideFlags m cmin cmax).getD f.1 false &&
    (insideFlags m cmin cmax).getD f.2.1 false &&
    (insideFlags m cmin cmax).getD f.2.2 false)

/-- `mesh.submesh([mask], append=True, repair=False)` (external collaborator):
keep the masked faces, keep exactly the vertices they reference, re-index. -/
def submeshAppend (m : Mesh) (mask : List Bool) : Mesh :=
  let selected := ((m.faces.zip mask).filter (fun fb => fb.2)).map Prod.fst
  let used := (selected.flatMap (fun f => [f.1, f.2.1, f.2.2])).dedup
  { vertices := used.map (fun i => m.vertices.getD i ⟨0, 0, 0⟩),
    faces := selected.map (fun f =>
      (used.indexOf f.1, used.indexOf f.2.1, used.indexOf f.2.2)) }

/-- The planar fallback of `slice_to_single`: the sub-mesh of the faces whose
three vertices all lie in the cell's closed box. -/
def planarFallback (m : Mesh) (cmin cmax : Pt) : Mesh :=
  submeshAppend m (faceMask m cmin cmax)

/-- The exact boolean-intersection engine
(`trimesh.boolean.intersection([mesh, box], …)`, an external collaborator);
`none` models the call raising an exception. -/
def ClipEngine : Type := Mesh → Cell → Option Mesh

/-- The decimal digit characters of a natural number (Python's `str(n)` used
by the f-string `f"chunk_{ix}_{jy}_{kz}"`). -/
def decDigits (n : ℕ) : List Char :=
  if h : n < 10 then [Nat.digitChar n]
  else decDigits (n / 10) ++ [Nat.digitChar (n % 10)]
decreasing_by exact Nat.div_lt_self (by omega) (by omega)

/-- The node name `f"chunk_{ix}_{jy}_{kz}"`. -/
def chunkName (t : ℕ × ℕ × ℕ) : String :=
  String.mk ("chunk_".toList ++
    (decDigits t.1 ++ ('_' :: (decDigits t.2.1 ++ ('_' :: decDigits t.2.2)))))

/-- The `try`/`except` body of one loop iteration of `slice_to_single`:
exact intersection; on an exception, the planar fallback when
`fallback == "planar"`, else no fragment. -/
def processCell (engine : ClipEngine) (m : Mesh) (fallback : String)
    (c : Cell) : Option Mesh :=
  match engine m c with
  | some part => some part
  | none =>
      if fallback = "planar" then some (planarFallback m c.cmin c.cmax)
      else none

/-- Observable trace of the loop of `slice_to_single`: the accumulated scene
(named geometry), the cells attempted, and the `progress(idx, total)` calls. -/
structure SliceResult where
  scene : List (String × Mesh)
  attempts : List Cell
  calls : List (ℕ × ℕ)
deriving DecidableEq

/-- One iteration of the loop: process the cell, add the fragment when its
volume reaches `tol`, then report progress `(idx, total)` (1-based `idx`). -/
def sliceStep (engine : ClipEngine) (m : Mesh) (fallback : String) (tol : ℚ)
    (total : ℕ) (st : SliceResult) (ic : ℕ × Cell) : SliceResult :=
  let newScene :=
    match processCell engine m fallback ic.2 with
    | some part =>
        if tol ≤ meshVolume part then
          st.scene ++ [(chunkName ic.2.idx, part)]
        else st.scene
    | none => st.scene
  { scene := newScene,
    attempts := st.attempts ++ [ic.2],
    calls := st.calls ++ [(ic.1 + 1, total)] }

/-- The per-cell loop of `slice_to_single`
(`for idx, (cmin, cmax, (ix, jy, kz)) in enumerate(cells, 1): …`). -/
def sliceCells (engine : ClipEngine) (m : Mesh) (fallback : String) (tol : ℚ)
    (cells : List Cell) : SliceResult :=
  cells.enum.foldl (sliceStep engine m fallback tol cells.length) ⟨[], [], []⟩

lemma foldl_sliceStep_attempts (engine : ClipEngine) (m : Mesh)
    (fallback : String) (tol : ℚ) (total : ℕ) (ps : List (ℕ × Cell)) :
    ∀ st : SliceResult,
      (ps.foldl (sliceStep engine m fallback tol total) st).attempts =
        st.attempts ++ ps.map Prod.snd := by
  induction ps with
  | nil => intro st; simp
  | cons p t ih =>
    intro st
    rw [List.foldl_cons, ih, List.map_cons]
    simp [sliceStep]

lemma foldl_sliceStep_calls (engine : ClipEngine) (m : Mesh)
    (fallback : String) (tol : ℚ) (total : ℕ) (ps : List (ℕ × Cell)) :
    ∀ st : SliceResult,
      (ps.foldl (sliceStep engine m fallback tol total) st).calls =
        st.calls ++ ps.map (fun p => (p.1 + 1, total)) := by
  induction ps with
  | nil => intro st; simp
  | cons p t ih =>
    intro st
    rw [List.foldl_cons, ih, List.map_cons]
    simp [sliceStep]

lemma sliceStep_scene_cases (engine : ClipEngine) (m : Mesh)
    (fallback : String) (tol : ℚ) (total : ℕ) (st : SliceResult)
    (ic : ℕ × Cell) :
    (sliceStep engine m fallback tol total st ic).scene = st.scene ∨
    ∃ part, processCell engine m fallback ic.2 = some part ∧
      tol ≤ meshVolume part ∧
      (sliceStep engine m fallback tol total st ic).scene =
        st.scene ++ [(chunkName ic.2.idx, part)] := by
  cases hp : processCell engine m fallback ic.2 with
  | none =>
    left
    simp [sliceStep, hp]
  | some part =>
    by_cases hv : tol ≤ meshVolume part
    · exact Or.inr ⟨part, rfl, hv, by simp [sliceStep, hp, hv]⟩
    · left
      simp [sliceStep, hp, hv]

lemma foldl_sliceStep_scene_sub (engine : ClipEngine) (m : Mesh)
    (fallback : String) (tol : ℚ) (total : ℕ) (ps : List (ℕ × Cell)) :
    ∀ st : SliceResult, ∀ e ∈ st.scene,
      e ∈ (ps.foldl (sliceStep engine m fallback tol total) st).scene := by
  induction ps with
  | nil => intro st e he; simpa using he
  | cons p t ih =>
    intro st e he
    rw [List.foldl_cons]
    apply ih
    rcases sliceStep_scene_cases engine m fallback tol total st p with h | ⟨part, _, _, h⟩
    · rwa [h]
    · rw [h]
      exact List.mem_append_left _ he

lemma foldl_sliceStep_scene_vol (engine : ClipEngine) (m : Mesh)
    (fallback : String) (tol : ℚ) (total : ℕ) (ps : List (ℕ × Cell)) :
    ∀ st : SliceResult, (∀ e ∈ st.scene, tol ≤ meshVolume e.2) →
      ∀ e ∈ (ps.foldl (sliceStep engine m fallback tol total) st).scene,
        tol ≤ meshVolume e.2 := by
  induction ps with
  | nil => intro st hst e he; exact hst e (by simpa using he)
  | cons p t ih =>
    intro st hst
    rw [List.foldl_cons]
    apply ih
    intro e he
    rcases sliceStep_scene_cases engine m fallback tol total st p with h | ⟨part, _, hv, h⟩
    · rw [h] at he
      exact hst e he
    · rw [h] at he
      rcases List.mem_append.mp he with h1 | h1
      · exact hst e h1
      · rw [List.mem_singleton.mp h1]
        exact hv

lemma foldl_sliceStep_scene_mem (engine : ClipEngine) (m : Mesh)
    (fallback : String) (tol : ℚ) (total : ℕ) (ps : List (ℕ × Cell)) :
    ∀ st : SliceResult, ∀ ic ∈ ps, ∀ part,
      processCell engine m fallback ic.2 = some part → tol ≤ meshVolume part →
      (chunkName ic.2.idx, part) ∈
        (ps.foldl (sliceStep engine m fallback tol total) st).scene := by
  induction ps with
  | nil => intro st ic h; exact absurd h (List.not_mem_nil ic)
  | cons p t ih =>
    intro st ic hic part hp hv
    rw [List.foldl_cons]
    rcases List.mem_cons.mp hic with h | h
    · subst h
      apply foldl_sliceStep_scene_sub
      simp [sliceStep, hp, hv]
    · exact ih _ ic h part hp hv

/-- **C2**: an exception in the per-cell exact-intersection step is caught
locally — for *every* engine behaviour (including failing on every cell) the
loop still attempts every cell exactly once, in order; with
`fallback = "none"` a failed cell produces no fragment and leaves the scene
unchanged. -/
theorem slice_exceptions_recovered (engine : ClipEngine) (m : Mesh)
    (fallback : String) (tol : ℚ) (cells : List Cell) :
    (sliceCells engine m fallback tol cells).attempts = cells ∧
    (∀ c : Cell, engine m c = none → processCell engine m "none" c = none) ∧
    (∀ st : SliceResult, ∀ ic : ℕ × Cell, engine m ic.2 = none →
      (sliceStep engine m "none" tol cells.length st ic).scene = st.scene) := by
  refine ⟨?_, ?_, ?_⟩
  · rw [sliceCells, foldl_sliceStep_attempts]
    rw [List.enum_map_snd]
    rfl
  · intro c hc
    rw [processCell, hc]
    rfl
  · intro st ic hc
    rw [sliceStep, processCell, hc]
    rfl

/-- **C4**: a fragment enters the output scene iff its volume reaches `tol`:
every entry of the final scene has volume `≥ tol`, and every cell whose
processing produced a fragment of volume `≥ tol` has its named fragment in
the final scene. -/
theorem slice_tol_filtering (engine : ClipEngine) (m : Mesh)
    (fallback : String) (tol : ℚ) (cells : List Cell) :
    (∀ e ∈ (sliceCells engine m fallback tol cells).scene,
      tol ≤ meshVolume e.2) ∧
    (∀ ic ∈ cells.enum, ∀ part,
      processCell engine m fallback ic.2 = some part → tol ≤ meshVolume part →
      (chunkName ic.2.idx, part) ∈
        (sliceCells engine m fallback tol cells).scene) := by
  constructor
  · intro e he
    exact foldl_sliceStep_scene_vol engine m fallback tol cells.length
      cells.enum ⟨[], [], []⟩ (by intro e h; exact absurd h (List.not_mem_nil e))
      e he
  · intro ic hic part hp hv
    exact foldl_sliceStep_scene_mem engine m fallback tol cells.length
      cells.enum ⟨[], [], []⟩ ic hic part hp hv

/-- **C5**: the progress callback trace — exactly one call per cell, in the
enumeration order; the `i`-th call (1-based) is `(i, total)`, so `total` is
constant and `done` increases by exactly 1 each call. -/
theorem slice_progress_trace (engine : ClipEngine) (m : Mesh)
    (fallback : String) (tol : ℚ) (cells : List Cell) :
    (sliceCells engine m fallback tol cells).calls =
      (List.range cells.length).map (fun i => (i + 1, cells.length)) := by
  rw [sliceCells, foldl_sliceStep_calls]
  have h : cells.enum.map (fun p : ℕ × Cell => (p.1 + 1, cells.length)) =
      (cells.enum.map Prod.fst).map (fun i => (i + 1, cells.length)) := by
    rw [List.map_map]
    rfl
  rw [h, List.enum_map_fst]
  rfl

/-- The geometric (position-triple) view of a face. -/
def facePts (m : Mesh) (f : ℕ × ℕ × ℕ) : Pt × Pt × Pt :=
  (m.vertexAt f.1, m.vertexAt f.2.1, m.vertexAt f.2.2)

/-- "All three vertices of the face lie in the closed box". -/
def faceInBoxB (m : Mesh) (cmin cmax : Pt) (f : ℕ × ℕ × ℕ) : Bool :=
  vInBoxB cmin cmax (m.vertexAt f.1) &&
  vInBoxB cmin cmax (m.vertexAt f.2.1) &&
  vInBoxB cmin cmax (m.vertexAt f.2.2)

/-- The faces selected by the planar-fallback mask. -/
def selOf (m : Mesh) (cmin cmax : Pt) : List (ℕ × ℕ × ℕ) :=
  m.faces.filter (faceInBoxB m cmin cmax)

/-- The vertex indices referenced by the selected faces (first occurrence
order, no duplicates). -/
def usedOf (m : Mesh) (cmin cmax : Pt) : List ℕ :=
  ((selOf m cmin cmax).flatMap (fun f => [f.1, f.2.1, f.2.2])).dedup

lemma zip_mask_filter {α : Type} (l : List α) (g : α → Bool) :
    ((l.zip (l.map g)).filter (fun fb => fb.2)).map Prod.fst = l.filter g := by
  induction l with
  | nil => rfl
  | cons a t ih =>
    by_cases h : g a <;> simp [List.filter_cons, h, ih]

lemma insideFlags_getD (m : Mesh) (cmin cmax : Pt) (i : ℕ)
    (h : i < m.vertices.length) :
    (insideFlags m cmin cmax).getD i false = vInBoxB cmin cmax (m.vertexAt i) := by
  rw [insideFlags, List.getD_eq_getElem _ _ (by simpa using h), List.getElem_map,
    Mesh.vertexAt, List.getD_eq_getElem _ _ h]

lemma faceMask_eq (m : Mesh) (cmin cmax : Pt) (hvalid : validMesh m) :
    faceMask m cmin cmax = m.faces.map (faceInBoxB m cmin cmax) := by
  rw [faceMask]
  apply List.map_congr_left
  intro f hf
  obtain ⟨h1, h2, h3⟩ := hvalid f hf
  rw [insideFlags_getD _ _ _ _ h1, insideFlags_getD _ _ _ _ h2,
    insideFlags_getD _ _ _ _ h3]
  rfl

/-- `planarFallback`, rewritten through the selected faces and their
referenced vertices (valid meshes). -/
lemma planarFallback_eq (m : Mesh) (cmin cmax : Pt) (hvalid : validMesh m) :
    planarFallback m cmin cmax =
      { vertices := (usedOf m cmin cmax).map (fun i => m.vertices.getD i ⟨0, 0, 0⟩),
        faces := (selOf m cmin cmax).map (fun f =>
          ((usedOf m cmin cmax).indexOf f.1,
           (usedOf m cmin cmax).indexOf f.2.1,
           (usedOf m cmin cmax).indexOf f.2.2)) } := by
  simp only [planarFallback, submeshAppend]
  rw [faceMask_eq m cmin cmax hvalid, zip_mask_filter m.faces (faceInBoxB m cmin cmax)]
  rfl

lemma map_getD_indexOf (l : List ℕ) (g : ℕ → Pt) (i : ℕ) (hi : i ∈ l) :
    (l.map g).getD (l.indexOf i) ⟨0, 0, 0⟩ = g i := by
  have hlt : l.indexOf i < l.length := List.indexOf_lt_length.mpr hi
  rw [List.getD_eq_getElem _ _ (by simpa using hlt), List.getElem_map,
    List.getElem_indexOf hlt]

lemma mem_usedOf (m : Mesh) (cmin cmax : Pt) (f : ℕ × ℕ × ℕ)
    (hf : f ∈ selOf m cmin cmax) :
    f.1 ∈ usedOf m cmin cmax ∧ f.2.1 ∈ usedOf m cmin cmax ∧
    f.2.2 ∈ usedOf m cmin cmax := by
  refine ⟨?_, ?_, ?_⟩ <;>
    exact List.mem_dedup.mpr (List.mem_flatMap.mpr ⟨f, hf, by simp⟩)

/-- **C3**: when the exact intersection fails and `fallback = "planar"`, the
fragment is the planar fallback; its faces are geometrically exactly the
input-mesh faces all of whose three vertices lie in the cell's closed box
(componentwise `≥ min` and `≤ max`), and no vertex outside the closed box
appears in the fragment's vertex list. -/
theorem planar_fallback_spec (engine : ClipEngine) (m : Mesh) (c : Cell)
    (hfail : engine m c = none) (hvalid : validMesh m) :
    processCell engine m "planar" c = some (planarFallback m c.cmin c.cmax) ∧
    (∀ f : ℕ × ℕ × ℕ, f ∈ selOf m c.cmin c.cmax ↔
      f ∈ m.faces ∧ inBox c.cmin c.cmax (m.vertexAt f.1) ∧
      inBox c.cmin c.cmax (m.vertexAt f.2.1) ∧
      inBox c.cmin c.cmax (m.vertexAt f.2.2)) ∧
    (planarFallback m c.cmin c.cmax).faces.map
        (facePts (planarFallback m c.cmin c.cmax)) =
      (selOf m c.cmin c.cmax).map (facePts m) ∧
    (∀ v ∈ (planarFallback m c.cmin c.cmax).vertices, inBox c.cmin c.cmax v) := by
  refine ⟨by simp [processCell, hfail], ?_, ?_, ?_⟩
  · intro f
    rw [selOf, List.mem_filter, faceInBoxB, Bool.and_eq_true, Bool.and_eq_true,
      vInBoxB_iff, vInBoxB_iff, vInBoxB_iff]
    tauto
  · rw [planarFallback_eq m c.cmin c.cmax hvalid, List.map_map]
    apply List.map_congr_left
    intro f hf
    obtain ⟨h1, h2, h3⟩ := mem_usedOf m c.cmin c.cmax f hf
    simp only [Function.comp_def, facePts, Mesh.vertexAt]
    rw [map_getD_indexOf _ _ _ h1, map_getD_indexOf _ _ _ h2,
      map_getD_indexOf _ _ _ h3]
  · rw [planarFallback_eq m c.cmin c.cmax hvalid]
    intro v hv
    obtain ⟨i, hi, hvi⟩ := List.mem_map.mp hv
    obtain ⟨f, hfS, hif⟩ := List.mem_flatMap.mp (List.mem_dedup.mp hi)
    have hmask : faceInBoxB m c.cmin c.cmax f = true :=
      (List.mem_filter.mp hfS).2
    rw [faceInBoxB, Bool.and_eq_true, Bool.and_eq_true] at hmask
    have hcase : i = f.1 ∨ i = f.2.1 ∨ i = f.2.2 := by simpa using hif
    have hbox : vInBoxB c.cmin c.cmax (m.vertexAt i) = true := by
      rcases hcase with h | h | h <;> rw [h]
      · exact hmask.1.1
      · exact hmask.1.2
      · exact hmask.2
    rw [← hvi]
    exact (vInBoxB_iff _ _ _).mp hbox

def noEngine : ClipEngine := fun _ _ => none

def constEngine (p : Mesh) : ClipEngine := fun _ _ => some p

def c0 : Cell := { cmin := ⟨0, 0, 0⟩, cmax := ⟨1, 1, 1⟩, idx := (0, 0, 0) }

def m0 : Mesh := { vertices := [⟨1, 0, 0⟩, ⟨0, 1, 0⟩, ⟨0, 0, 1⟩], faces := [(0, 1, 2)] }

def m1 : Mesh :=
  { vertices := [⟨0, 0, 0⟩, ⟨1, 0, 0⟩, ⟨0, 1, 0⟩, ⟨5, 5, 5⟩],
    faces := [(0, 1, 2), (0, 1, 3)] }

/-- Witness for `slice_exceptions_recovered`: an engine failing on every
cell, `fallback = "none"`. -/
theorem slice_exceptions_recovered_witness :
    noEngine m0 c0 = none ∧
    (sliceCells noEngine m0 "none" 0 [c0]).attempts = [c0] ∧
    processCell noEngine m0 "none" c0 = none ∧
    (sliceStep noEngine m0 "none" 0 1 ⟨[], [], []⟩ (0, c0)).scene = [] :=
  ⟨rfl,
   (slice_exceptions_recovered noEngine m0 "none" 0 [c0]).1,
   (slice_exceptions_recovered noEngine m0 "none" 0 [c0]).2.1 c0 rfl,
   (slice_exceptions_recovered noEngine m0 "none" 0 [c0]).2.2 ⟨[], [], []⟩ (0, c0) rfl⟩

/-- Witness for `planar_fallback_spec`: a mesh with one face inside the cell
box and one face reaching outside it. -/
theorem planar_fallback_spec_witness :
    noEngine m1 c0 = none ∧ validMesh m1 ∧
    processCell noEngine m1 "planar" c0 =
      some (planarFallback m1 c0.cmin c0.cmax) :=
  ⟨rfl, by decide, (planar_fallback_spec noEngine m1 c0 rfl (by decide)).1⟩

/-- Witness for `slice_tol_filtering`: a successful clip with volume `1/6`
and `tol = 0`. -/
theorem slice_tol_filtering_witness :
    ((0, c0) ∈ ([c0] : List Cell).enum ∧
      processCell (constEngine m0) m0 "planar" c0 = some m0 ∧
      (0 : ℚ) ≤ meshVolume m0) ∧
    (chunkName c0.idx, m0) ∈ (sliceCells (constEngine m0) m0 "planar" 0 [c0]).scene := by
  have h1 : (0, c0) ∈ ([c0] : List Cell).enum := by
    rw [show ([c0] : List Cell).enum = [(0, c0)] from rfl]
    exact List.mem_singleton.mpr rfl
  have h2 : processCell (constEngine m0) m0 "planar" c0 = some m0 := rfl
  have h3 : (0 : ℚ) ≤ meshVolume m0 := by
    simp only [meshVolume, m0, Mesh.vertexAt, dotP, crossP, List.map_cons,
      List.map_nil, List.sum_cons, List.sum_nil]
    norm_num
  exact ⟨⟨h1, h2, h3⟩,
    (slice_tol_filtering (constEngine m0) m0 "planar" 0 [c0]).2 (0, c0) h1 m0 h2 h3⟩

/-! ## Distinctness of the cell indices and of the `chunk_i_j_k` names -/

/-- Numeric value of a decimal digit character. -/
def digitVal (c : Char) : ℕ := c.toNat - 48

lemma digitVal_digitChar (d : ℕ) (h : d < 10) :
    digitVal (Nat.digitChar d) = d := by
  interval_cases d <;> rfl

lemma decDigits_isDigit (n : ℕ) : ∀ c ∈ decDigits n, c.isDigit = true := by
  induction n using Nat.strong_induction_on with
  | _ n ih =>
    unfold decDigits
    split
    · next h =>
      intro c hc
      rw [List.mem_singleton.mp hc]
      interval_cases n <;> rfl
    · next h =>
      intro c hc
      rcases List.mem_append.mp hc with h1 | h1
      · exact ih (n / 10) (Nat.div_lt_self (by omega) (by omega)) c h1
      · rw [List.mem_singleton.mp h1]
        have hm : n % 10 < 10 := Nat.mod_lt _ (by omega)
        set d := n % 10 with hd
        interval_cases d <;> rfl

lemma decDigits_foldl (n : ℕ) : ∀ a : ℕ,
    (decDigits n).foldl (fun x c => x * 10 + digitVal c) a =
      a * 10 ^ (decDigits n).length + n := by
  induction n using Nat.strong_induction_on with
  | _ n ih =>
    intro a
    unfold decDigits
    split
    · next h =>
      simp only [List.foldl_cons, List.foldl_nil, List.length_singleton]
      rw [digitVal_digitChar n h, pow_one]
    · next h =>
      rw [List.foldl_append, ih (n / 10) (Nat.div_lt_self (by omega) (by omega)) a]
      simp only [List.foldl_cons, List.foldl_nil, List.length_append,
        List.length_singleton]
      rw [digitVal_digitChar (n % 10) (Nat.mod_lt _ (by omega)), pow_succ]
      calc (a * 10 ^ (decDigits (n / 10)).length + n / 10) * 10 + n % 10
          = a * (10 ^ (decDigits (n / 10)).length * 10) +
              (10 * (n / 10) + n % 10) := by ring
        _ = a * (10 ^ (decDigits (n / 10)).length * 10) + n := by
              rw [Nat.div_add_mod]

lemma decDigits_injective : Function.Injective decDigits := by
  intro a b h
  have ha := decDigits_foldl a 0
  have hb := decDigits_foldl b 0
  rw [h] at ha
  simp only [Nat.zero_mul, Nat.zero_add] at ha hb
  exact ha.symm.trans hb

/-- A list equation `xs ++ '_' :: ys = xs' ++ '_' :: ys'` with all-digit
`xs, xs'` splits uniquely at the separator. -/
lemma digit_sep_split (xs : List Char) :
    ∀ (xs' ys ys' : List Char), (∀ c ∈ xs, c.isDigit = true) →
      (∀ c ∈ xs', c.isDigit = true) →
      xs ++ '_' :: ys = xs' ++ '_' :: ys' → xs = xs' ∧ ys = ys' := by
  induction xs with
  | nil =>
    intro xs' ys ys' _ hd' h
    cases xs' with
    | nil => simpa using h
    | cons b t =>
      exfalso
      simp only [List.nil_append, List.cons_append] at h
      injection h with h1 h2
      have hb := hd' b (List.mem_cons_self b t)
      rw [← h1] at hb
      exact absurd hb (by decide)
  | cons a t ih =>
    intro xs' ys ys' hd hd' h
    cases xs' with
    | nil =>
      exfalso
      simp only [List.cons_append, List.nil_append] at h
      injection h with h1 h2
      have ha := hd a (List.mem_cons_self a t)
      rw [h1] at ha
      exact absurd ha (by decide)
    | cons b t' =>
      simp only [List.cons_append] at h
      injection h with h1 h2
      obtain ⟨e1, e2⟩ := ih t' ys ys'
        (fun c hc => hd c (List.mem_cons_of_mem _ hc))
        (fun c hc => hd' c (List.mem_cons_of_mem _ hc)) h2
      exact ⟨by rw [h1, e1], e2⟩

lemma chunkName_injective : Function.Injective chunkName := by
  intro s t h
  have hdata : "chunk_".toList ++
      (decDigits s.1 ++ ('_' :: (decDigits s.2.1 ++ ('_' :: decDigits s.2.2)))) =
      "chunk_".toList ++
      (decDigits t.1 ++ ('_' :: (decDigits t.2.1 ++ ('_' :: decDigits t.2.2)))) :=
    congrArg String.data h
  have h2 := List.append_cancel_left hdata
  obtain ⟨e1, h3⟩ := digit_sep_split (decDigits s.1) (decDigits t.1) _ _
    (decDigits_isDigit s.1) (decDigits_isDigit t.1) h2
  obtain ⟨e2, e3⟩ := digit_sep_split (decDigits s.2.1) (decDigits t.2.1) _ _
    (decDigits_isDigit s.2.1) (decDigits_isDigit t.2.1) h3
  obtain ⟨s1, s2, s3⟩ := s
  obtain ⟨t1, t2, t3⟩ := t
  have i1 := decDigits_injective e1
  have i2 := decDigits_injective e2
  have i3 := decDigits_injective e3
  simp only at i1 i2 i3
  rw [i1, i2, i3]

lemma nodup_tripleIdx (nx ny nz : ℕ) :
    ((List.range nx).flatMap (fun i =>
      (List.range ny).flatMap (fun j =>
        (List.range nz).map (fun k => (i, j, k))))).Nodup := by
  rw [List.nodup_flatMap]
  refine ⟨fun i _ => ?_, ?_⟩
  · rw [List.nodup_flatMap]
    refine ⟨fun j _ => ?_, ?_⟩
    · refine List.Nodup.map ?_ (List.nodup_range nz)
      intro k k' hk
      simpa using congrArg (fun u : ℕ × ℕ × ℕ => u.2.2) hk
    · refine List.Pairwise.imp ?_ (List.nodup_range ny)
      intro j j' hne a ha hb
      obtain ⟨k, -, rfl⟩ := List.mem_map.mp ha
      obtain ⟨k', -, he⟩ := List.mem_map.mp hb
      exact hne (by simpa using (congrArg (fun u : ℕ × ℕ × ℕ => u.2.1) he).symm)
  · refine List.Pairwise.imp ?_ (List.nodup_range nx)
    intro i i' hne a ha hb
    obtain ⟨j, -, hj⟩ := List.mem_flatMap.mp ha
    obtain ⟨k, -, rfl⟩ := List.mem_map.mp hj
    obtain ⟨j', -, hj'⟩ := List.mem_flatMap.mp hb
    obtain ⟨k', -, he⟩ := List.mem_map.mp hj'
    exact hne (by simpa using (congrArg (fun u : ℕ × ℕ × ℕ => u.1) he).symm)

lemma gridCells_idx (mn mx step : Pt) :
    (gridCells mn mx step).map (fun c => c.idx) =
      (List.range ((axisCuts mn.x mx.x step.x).length - 1)).flatMap (fun i =>
        (List.range ((axisCuts mn.y mx.y step.y).length - 1)).flatMap (fun j =>
          (List.range ((axisCuts mn.z mx.z step.z).length - 1)).map
            (fun k => (i, j, k)))) := by
  simp only [gridCells, List.map_flatMap, List.map_map]
  rfl

/-- **C10**: the lattice index triples of the cells of any grid are pairwise
distinct, and therefore so are the node names `chunk_<i>_<j>_<k>` under which
`slice_to_single` adds kept fragments (decimal rendering with an `_`
separator is injective on index triples) — no kept fragment's name collides
with another's. -/
theorem gridCells_names_distinct (mn mx step : Pt) :
    ((gridCells mn mx step).map (fun c => c.idx)).Nodup ∧
    ((gridCells mn mx step).map (fun c => chunkName c.idx)).Nodup := by
  have h1 : ((gridCells mn mx step).map (fun c => c.idx)).Nodup := by
    rw [gridCells_idx]
    exact nodup_tripleIdx _ _ _
  refine ⟨h1, ?_⟩
  have h2 : (gridCells mn mx step).map (fun c => chunkName c.idx) =
      ((gridCells mn mx step).map (fun c => c.idx)).map chunkName := by
    rw [List.map_map]
    rfl
  rw [h2]
  exact List.Nodup.map chunkName_injective h1

/-! ## Object-identity (heap) model: the input mesh is never mutated -/

/-- A store of mesh objects; a reference is an index into the store.  This
mirrors Python object identity: `mesh.copy()` and the trimesh constructors
allocate fresh objects, the in-place repair methods write through a
reference. -/
abbrev Store := List Mesh

def emptyMesh : Mesh := { vertices := [], faces := [] }

def readAt (s : Store) (r : ℕ) : Mesh := s.getD r emptyMesh

/-- Allocate a new object, returning the fresh reference. -/
def alloc (s : Store) (m : Mesh) : Store × ℕ := (s ++ [m], s.length)

/-- In-place mutation through a reference. -/
def writeAt (s : Store) (r : ℕ) (m : Mesh) : Store := s.set r m

/-- The six in-place repair operations `repair_mesh` applies — external
collaborators (`trimesh.repair.*`, `Trimesh.remove_*`), abstracted as
functions on mesh data. -/
structure RepairOps where
  remove_infinite_values : Mesh → Mesh
  remove_duplicate_faces : Mesh → Mesh
  remove_degenerate_faces : Mesh → Mesh
  fill_holes : Mesh → Mesh
  remove_unreferenced_vertices : Mesh → Mesh
  fix_normals : Mesh → Mesh

/-- `repair_mesh(mesh)` from `grid_split/core.py`: `m = mesh.copy()`, then
the six in-place repairs on `m`, then return `m`. -/
def repair_mesh (ops : RepairOps) (s : Store) (r : ℕ) : Store × ℕ :=
  let a := alloc s (readAt s r)
  let s1 := a.1
  let m := a.2
  let s2 := writeAt s1 m (ops.remove_infinite_values (readAt s1 m))
  let s3 := writeAt s2 m (ops.remove_duplicate_faces (readAt s2 m))
  let s4 := writeAt s3 m (ops.remove_degenerate_faces (readAt s3 m))
  let s5 := writeAt s4 m (ops.fill_holes (readAt s4 m))
  let s6 := writeAt s5 m (ops.remove_unreferenced_vertices (readAt s5 m))
  let s7 := writeAt s6 m (ops.fix_normals (readAt s6 m))
  (s7, m)

lemma readAt_append (s : Store) (m : Mesh) (r : ℕ) (h : r < s.length) :
    readAt (s ++ [m]) r = readAt s r := by
  rw [readAt, readAt, List.getD_eq_getElem?_getD, List.getD_eq_getElem?_getD,
    List.getElem?_append_left h]

lemma readAt_writeAt_ne (s : Store) (i r : ℕ) (m : Mesh) (h : i ≠ r) :
    readAt (writeAt s i m) r = readAt s r := by
  rw [readAt, readAt, writeAt, List.getD_eq_getElem?_getD,
    List.getD_eq_getElem?_getD, List.getElem?_set_ne h]

lemma repair_mesh_frame (ops : RepairOps) (s : Store) (r : ℕ)
    (h : r < s.length) :
    readAt (repair_mesh ops s r).1 r = readAt s r ∧
    (repair_mesh ops s r).2 ≠ r := by
  have hne : s.length ≠ r := by omega
  constructor
  · simp only [repair_mesh, alloc]
    rw [readAt_writeAt_ne _ _ _ _ hne, readAt_writeAt_ne _ _ _ _ hne,
      readAt_writeAt_ne _ _ _ _ hne, readAt_writeAt_ne _ _ _ _ hne,
      readAt_writeAt_ne _ _ _ _ hne, readAt_writeAt_ne _ _ _ _ hne,
      readAt_append _ _ _ h]
  · simp only [repair_mesh, alloc]
    omega

/-- Scene in the heap model: names paired with fragment references. -/
structure AllocState where
  store : Store
  scene : List (String × ℕ)

/-- One loop iteration of `slice_to_single` in the heap model: the cell box
(`trimesh.creation.box`) and the produced fragment (boolean intersection or
planar fallback) are fresh allocations; the loaded mesh is only read. -/
def sliceAllocStep (engine : ClipEngine) (boxOf : Cell → Mesh)
    (fallback : String) (tol : ℚ) (meshRef : ℕ) (st : AllocState)
    (c : Cell) : AllocState :=
  let mesh := readAt st.store meshRef
  let s1 := (alloc st.store (boxOf c)).1
  match processCell engine mesh fallback c with
  | some part =>
      let s2 := (alloc s1 part).1
      let partRef := (alloc s1 part).2
      if tol ≤ meshVolume part then
        { store := s2, scene := st.scene ++ [(chunkName c.idx, partRef)] }
      else { store := s2, scene := st.scene }
  | none => { store := s1, scene := st.scene }

/-- The loop of `slice_to_single` in the heap model. -/
def sliceCellsAlloc (engine : ClipEngine) (boxOf : Cell → Mesh)
    (fallback : String) (tol : ℚ) (meshRef : ℕ) (cells : List Cell)
    (s0 : Store) : AllocState :=
  cells.foldl (sliceAllocStep engine boxOf fallback tol meshRef) ⟨s0, []⟩

lemma sliceAllocStep_frame (engine : ClipEngine) (boxOf : Cell → Mesh)
    (fallback : String) (tol : ℚ) (meshRef : ℕ) (st : AllocState) (c : Cell)
    (r : ℕ) (h : r < st.store.length) :
    readAt (sliceAllocStep engine boxOf fallback tol meshRef st c).store r =
      readAt st.store r ∧
    r < (sliceAllocStep engine boxOf fallback tol meshRef st c).store.length := by
  simp only [sliceAllocStep, alloc]
  cases hp : processCell engine (readAt st.store meshRef) fallback c with
  | none =>
    refine ⟨readAt_append _ _ _ h, ?_⟩
    simp only [List.length_append]
    omega
  | some part =>
    by_cases hv : tol ≤ meshVolume part
    · simp only [if_pos hv]
      refine ⟨?_, ?_⟩
      · rw [readAt_append _ _ _ (by simp only [List.length_append]; omega),
          readAt_append _ _ _ h]
      · simp only [List.length_append]
        omega
    · simp only [if_neg hv]
      refine ⟨?_, ?_⟩
      · rw [readAt_append _ _ _ (by simp only [List.length_append]; omega),
          readAt_append _ _ _ h]
      · simp only [List.length_append]
        omega

lemma foldl_sliceAllocStep_frame (engine : ClipEngine) (boxOf : Cell → Mesh)
    (fallback : String) (tol : ℚ) (meshRef : ℕ) (cells : List Cell) :
    ∀ (st : AllocState) (r : ℕ), r < st.store.length →
      readAt ((cells.foldl
          (sliceAllocStep engine boxOf fallback tol meshRef) st).store) r =
        readAt st.store r := by
  induction cells with
  | nil => intro st r _; rfl
  | cons c t ih =>
    intro st r h
    rw [List.foldl_cons]
    obtain ⟨h1, h2⟩ :=
      sliceAllocStep_frame engine boxOf fallback tol meshRef st c r h
    rw [ih _ r h2, h1]

/-- **C9**: the input mesh object is never mutated.  `repair_mesh` performs
all repairs on a fresh copy: it returns a new reference and the object at the
input reference (its vertices and faces) is unchanged; and the per-cell loop
of `slice_to_single` only allocates new mesh objects (cell boxes, fragments)
— for every engine and fallback mode, the loaded mesh is unchanged
throughout the split. -/
theorem mesh_never_mutated (ops : RepairOps) (s : Store) (r : ℕ)
    (h : r < s.length) (engine : ClipEngine) (boxOf : Cell → Mesh)
    (fallback : String) (tol : ℚ) (cells : List Cell) (s0 : Store)
    (mref : ℕ) (h0 : mref < s0.length) :
    (readAt (repair_mesh ops s r).1 r = readAt s r ∧
      (repair_mesh ops s r).2 ≠ r) ∧
    readAt (sliceCellsAlloc engine boxOf fallback tol mref cells s0).store mref
      = readAt s0 mref :=
  ⟨repair_mesh_frame ops s r h,
   foldl_sliceAllocStep_frame engine boxOf fallback tol mref cells ⟨s0, []⟩
     mref h0⟩

/-- Witness for `mesh_never_mutated`: identity collaborators, a one-object
store holding `m0`, the always-failing engine, one cell. -/
theorem mesh_never_mutated_witness :
    (0 < ([m0] : Store).length ∧ 0 < ([m1] : Store).length) ∧
    ((readAt (repair_mesh ⟨id, id, id, id, id, id⟩ [m0] 0).1 0 = readAt [m0] 0 ∧
       (repair_mesh ⟨id, id, id, id, id, id⟩ [m0] 0).2 ≠ 0) ∧
     readAt (sliceCellsAlloc noEngine (fun _ => emptyMesh) "planar" 0 0 [c0]
         [m1]).store 0 = readAt [m1] 0) :=
  ⟨⟨Nat.zero_lt_one, Nat.zero_lt_one⟩,
   mesh_never_mutated ⟨id, id, id, id, id, id⟩ [m0] 0 Nat.zero_lt_one
     noEngine (fun _ => emptyMesh) "planar" 0 [c0] [m1] 0 Nat.zero_lt_one⟩

/-! ## CLI wiring (`grid_split/cli.py`) -/

/-- Parsed command-line arguments (`build_parser().parse_args(argv)`). -/
structure CliArgs where
  input : Option String
  size : Option (ℚ × ℚ × ℚ)
  merged : Option String
  repair : Bool
  fallback : String
  gui : Bool

/-- The parser's declared choices for `--fallback`. -/
def fallbackChoices : List String := ["none", "planar"]

/-- The parser's declared default for `--fallback`. -/
def fallbackDefault : String := "planar"

/-- The argument record of the `slice_to_single(...)` call made by `main`. -/
structure SliceCall where
  input : String
  size : ℚ × ℚ × ℚ
  merged : String
  repair : Bool
  fallback : String
  tol : ℚ

/-- `main(argv)` from `grid_split/cli.py` after parsing: the GUI branch
(`none` call), the usage check, then
`slice_to_single(args.input, tuple(args.size), args.merged,
repair=args.repair)`.  The `fallback` and `tol` keywords are *not* passed,
so the defaults of `slice_to_single` (`"planar"`, `1e-6`) apply regardless
of `args.fallback`. -/
def cliMain (args : CliArgs) : Except String (Option SliceCall) :=
  if args.gui then Except.ok none
  else
    match args.input, args.size, args.merged with
    | some i, some sz, some mg =>
        Except.ok (some
          { input := i, size := sz, merged := mg, repair := args.repair,
            fallback := "planar", tol := 1 / 1000000 })
    | _, _, _ => Except.error "--input, --size, --merged required in CLI mode"

/-- **C8** (the code violates the claim): `--fallback` is declared with
choices `none`/`planar` and default `planar`, but `main` never forwards
`args.fallback` to `slice_to_single`; invoking the CLI with
`--fallback none` still runs the split with fallback `"planar"`. -/
theorem cli_fallback_not_forwarded :
    "none" ∈ fallbackChoices ∧ fallbackDefault = "planar" ∧
    ∃ call : SliceCall,
      cliMain { input := some "model.stl", size := some (250, 250, 250),
                merged := some "out.3mf", repair := false,
                fallback := "none", gui := false } = Except.ok (some call) ∧
      call.fallback = "planar" ∧ call.fallback ≠ "none" := by
  refine ⟨List.mem_cons_self _ _, rfl, ⟨_, rfl, rfl, ?_⟩⟩
  intro hcontra
  exact absurd hcontra (by decide)
